import Mathlib

/-!
Verification of the simulation and risk-analytics core of the
Cross-Asset Stress Scenario Simulator.

The Python sources under `backend/simulation/` are shallowly embedded here:
pure numerical code becomes Lean functions over `ℝ`; Python dicts keyed by
ticker strings become association lists `List (String × ℝ)`; numpy's global
random state becomes an explicit state record threaded through the
simulators; `numpy.linalg` operations whose outputs the code consumes
opaquely (`eigh`, `cholesky`, `scipy.optimize.minimize`) are passed in as
explicit function arguments so that theorems quantify over every possible
deterministic outcome of those routines.
-/

/- ===== Python dict model (backend code stores per-ticker floats in dicts) ===== -/

/-- Lookup in a Python dict modelled as an association list: first matching
key wins, `none` when the key is absent (`ticker in d` is `dictGet d t ≠ none`). -/
def dictGet : List (String × ℝ) → String → Option ℝ
  | [], _ => none
  | p :: rest, k => if p.1 = k then some p.2 else dictGet rest k

/-- Assignment `d[k] = v` for a key already present: every entry whose key
equals `k` has its value replaced, others are untouched. -/
def dictSet : List (String × ℝ) → String → ℝ → List (String × ℝ)
  | [], _, _ => []
  | p :: rest, k, v => (if p.1 = k then (p.1, v) else p) :: dictSet rest k v

theorem dictGet_dictSet_same (d : List (String × ℝ)) (k : String) (v : ℝ) :
    dictGet (dictSet d k v) k = (dictGet d k).map (fun _ => v) := by
  induction d with
  | nil => rfl
  | cons p rest ih =>
    by_cases h : p.1 = k
    · simp [dictGet, dictSet, h]
    · simp [dictGet, dictSet, h, ih]

theorem dictGet_dictSet_ne (d : List (String × ℝ)) (k j : String) (v : ℝ)
    (hjk : j ≠ k) : dictGet (dictSet d k v) j = dictGet d j := by
  induction d with
  | nil => rfl
  | cons p rest ih =>
    by_cases h : p.1 = k
    · have hj : p.1 ≠ j := by rw [h]; exact fun e => hjk e.symm
      simp [dictGet, dictSet, h, hj, ih, Ne.symm hjk]
    · by_cases hj : p.1 = j
      · simp [dictGet, dictSet, h, hj, ih, hjk]
      · simp [dictGet, dictSet, h, hj, ih]

/- ===== SimulationEngine._apply_scenario_adjustments (engine.py:270-317) ===== -/

/-- Prepared simulation data dictionary as returned by
`SimulationEngine.prepare_simulation_data` (engine.py:84-92), restricted to
the four fields the scenario-adjustment code reads or writes. -/
structure SimData (n : Nat) where
  initial_prices : List (String × ℝ)
  expected_returns : List (String × ℝ)
  volatilities : List (String × ℝ)
  correlation_matrix : Matrix (Fin n) (Fin n) ℝ

/-- Scenario adjustments dictionary (engine.py:275-278); an absent key is
`none`, mirroring the `if key in adjustments` guards. -/
structure ScenarioAdjustments where
  return_shock : Option (List (String × ℝ))
  volatility_multiplier : Option (List (String × ℝ))
  correlation_multiplier : Option ℝ

/-- Loop `for ticker, shock in adjustments[return_shock].items():` with the
membership guard `if ticker in data[expected_returns]` (engine.py:286-290):
additive update of each present ticker. -/
def applyReturnShocks (exps : List (String × ℝ)) : List (String × ℝ) → List (String × ℝ)
  | [] => exps
  | (t, s) :: rest =>
    match dictGet exps t with
    | some v => applyReturnShocks (dictSet exps t (v + s)) rest
    | none => applyReturnShocks exps rest

/-- Loop applying volatility multipliers (engine.py:293-297): multiplicative
update of each present ticker. -/
def applyVolMultipliers (vols : List (String × ℝ)) : List (String × ℝ) → List (String × ℝ)
  | [] => vols
  | (t, m) :: rest =>
    match dictGet vols t with
    | some v => applyVolMultipliers (dictSet vols t (v * m)) rest
    | none => applyVolMultipliers vols rest

/-- Off-diagonal scaling with clipping to [-0.99, 0.99] (engine.py:305-311). -/
def scaleOffDiagonal {n : Nat} (M : Matrix (Fin n) (Fin n) ℝ) (mult : ℝ) :
    Matrix (Fin n) (Fin n) ℝ :=
  fun i j => if i = j then M i j else min (max (M i j * mult) (-0.99)) 0.99

/-- The body of `SimulationEngine._apply_scenario_adjustments`
(engine.py:270-317) acting on the contents of the `data` dict.  `repair`
stands for `CorrelationMatrix._make_positive_definite`, which calls
`numpy.linalg.eigh`; it is passed in as a function argument. -/
def applyScenarioAdjustmentsData {n : Nat}
    (repair : Matrix (Fin n) (Fin n) ℝ → Matrix (Fin n) (Fin n) ℝ)
    (data : SimData n) (adj : ScenarioAdjustments) : SimData n :=
  let d1 :=
    match adj.return_shock with
    | some shocks => { data with expected_returns := applyReturnShocks data.expected_returns shocks }
    | none => data
  let d2 :=
    match adj.volatility_multiplier with
    | some mults => { d1 with volatilities := applyVolMultipliers d1.volatilities mults }
    | none => d1
  match adj.correlation_multiplier with
  | some mult =>
    { d2 with correlation_matrix := repair (scaleOffDiagonal d2.correlation_matrix mult) }
  | none => d2

/-- Heap-level view of `_apply_scenario_adjustments`: the Python function
mutates the dict object it is handed (`data[expected_returns][ticker] += shock`
and so on) and then executes `return data`, returning the very same
reference.  The store maps references (naturals) to dict contents; the call
updates the store at the argument reference and returns that reference. -/
def applyScenarioAdjustmentsRef {n : Nat}
    (repair : Matrix (Fin n) (Fin n) ℝ → Matrix (Fin n) (Fin n) ℝ)
    (store : Nat → SimData n) (r : Nat) (adj : ScenarioAdjustments) :
    (Nat → SimData n) × Nat :=
  (Function.update store r (applyScenarioAdjustmentsData repair (store r) adj), r)

/- ===== PortfolioOptimizer (optimizer.py) ===== -/

/-- Result object returned by `scipy.optimize.minimize`, restricted to the
fields the optimizer reads (`success`, `message`, `x`).  The solver is
external; theorems quantify over its outcome. -/
structure ScoResult (n : Nat) where
  success : Bool
  message : String
  x : Fin n → ℝ

/-- PortfolioOptimizer state after `__init__` (optimizer.py:14-31):
tickers in dict order, return and volatility vectors, covariance
`Diag(vols) * Corr * Diag(vols)`. -/
structure PortfolioOptimizer (n : Nat) where
  tickers : Fin n → String
  returns : Fin n → ℝ
  vols : Fin n → ℝ
  covariance : Matrix (Fin n) (Fin n) ℝ

/-- Constructor computation of the covariance matrix (optimizer.py:26-29). -/
def PortfolioOptimizer.mk_from_inputs {n : Nat} (tickers : Fin n → String)
    (returns vols : Fin n → ℝ) (corr : Matrix (Fin n) (Fin n) ℝ) :
    PortfolioOptimizer n :=
  ⟨tickers, returns, vols, Matrix.diagonal vols * corr * Matrix.diagonal vols⟩

/-- Portfolio annual return, volatility, Sharpe ratio and parametric
expected shortfall (optimizer.py:33-52). -/
noncomputable def portfolio_performance {n : Nat} (opt : PortfolioOptimizer n)
    (w : Fin n → ℝ) : ℝ × ℝ × ℝ × ℝ :=
  let port_return := ∑ i, opt.returns i * w i
  let port_vol := Real.sqrt (Matrix.dotProduct w (opt.covariance.mulVec w))
  let sharpe := if port_vol > 0 then port_return / port_vol else 0
  (port_return, port_vol, sharpe, port_return - 2.06 * port_vol)

/-- Objective minimized by `optimize_maximum_sharpe` (optimizer.py:54-56). -/
noncomputable def neg_sharpe {n : Nat} (opt : PortfolioOptimizer n) (w : Fin n → ℝ) : ℝ :=
  -(portfolio_performance opt w).2.2.1

/-- Objective minimized by `optimize_minimum_volatility` (optimizer.py:58-60). -/
noncomputable def port_vol_objective {n : Nat} (opt : PortfolioOptimizer n) (w : Fin n → ℝ) : ℝ :=
  (portfolio_performance opt w).2.1

/-- Returned dict of the two optimize methods: on failure only `success`
and `message` are present; on success `message` is absent and the numeric
fields are present. -/
structure OptimizeOutput where
  success : Bool
  message : Option String
  weights : Option (List (String × ℝ))
  expected_return : Option ℝ
  volatility : Option ℝ
  sharpe_ratio : Option ℝ
  expected_shortfall : Option ℝ

/-- Weights dict `dict(zip(self.tickers, weights.tolist()))` (optimizer.py:83). -/
def weightsDict {n : Nat} (tickers : Fin n → String) (w : Fin n → ℝ) :
    List (String × ℝ) :=
  (List.finRange n).map (fun i => (tickers i, w i))

/-- Method `optimize_maximum_sharpe` (optimizer.py:62-88).  `res` is the
outcome of the `sco.minimize` call on `neg_sharpe` with the simplex
constraint, box bounds and equal-weight start. -/
noncomputable def optimize_maximum_sharpe {n : Nat} (opt : PortfolioOptimizer n)
    (res : ScoResult n) : OptimizeOutput :=
  if res.success = false then
    { success := false, message := some res.message, weights := none,
      expected_return := none, volatility := none, sharpe_ratio := none,
      expected_shortfall := none }
  else
    let p := portfolio_performance opt res.x
    { success := true, message := none,
      weights := some (weightsDict opt.tickers res.x),
      expected_return := some p.1, volatility := some p.2.1,
      sharpe_ratio := some p.2.2.1, expected_shortfall := some p.2.2.2 }

/-- Method `optimize_minimum_volatility` (optimizer.py:90-116).  `res` is
the outcome of the `sco.minimize` call on `port_vol_objective` under the
same constraints. -/
noncomputable def optimize_minimum_volatility {n : Nat} (opt : PortfolioOptimizer n)
    (res : ScoResult n) : OptimizeOutput :=
  if res.success = false then
    { success := false, message := some res.message, weights := none,
      expected_return := none, volatility := none, sharpe_ratio := none,
      expected_shortfall := none }
  else
    let p := portfolio_performance opt res.x
    { success := true, message := none,
      weights := some (weightsDict opt.tickers res.x),
      expected_return := some p.1, volatility := some p.2.1,
      sharpe_ratio := some p.2.2.1, expected_shortfall := some p.2.2.2 }

/- ===== CorrelationMatrix accessors (correlation_matrix.py) ===== -/

/-- A pandas correlation DataFrame: its ticker labels and its entries,
addressed by label as `df.loc[t1, t2]`. -/
structure CorrDF where
  tickers : List String
  entry : String → String → ℝ

/-- State of a `CorrelationMatrix` instance: `self.correlation_matrix`
(None until computed or loaded) and `self.tickers`. -/
structure CorrelationMatrixState where
  correlation_matrix : Option CorrDF
  tickers : List String

/-- Constructor `CorrelationMatrix.__init__` (correlation_matrix.py:17-20). -/
def CorrelationMatrixState.init : CorrelationMatrixState := ⟨none, []⟩

/-- Upper-triangle label pairs (strictly above the diagonal), mirroring the
`np.triu(..., k=1)` mask used by the summary accessors. -/
def upperPairs : List String → List (String × String)
  | [] => []
  | t :: rest => rest.map (fun u => (t, u)) ++ upperPairs rest

/-- Arithmetic mean of a list, `np.mean`. -/
noncomputable def listMean (l : List ℝ) : ℝ := l.sum / l.length

/-- Method `get_cholesky_decomposition` (correlation_matrix.py:103-123).
The try/except body after the None guard (a `numpy.linalg.cholesky`
attempt with eigenvalue-repair fallback) is abstracted as `cholBody`. -/
def get_cholesky_decomposition (cholBody : CorrDF → CorrDF)
    (s : CorrelationMatrixState) : Except String CorrDF :=
  match s.correlation_matrix with
  | none => Except.error "Correlation matrix not calculated yet"
  | some df => Except.ok (cholBody df)

/-- Method `get_correlation` (correlation_matrix.py:150-163). -/
def get_correlation (s : CorrelationMatrixState) (t1 t2 : String) :
    Except String ℝ :=
  match s.correlation_matrix with
  | none => Except.error "Correlation matrix not calculated yet"
  | some df => Except.ok (df.entry t1 t2)

/-- Method `get_average_correlation` (correlation_matrix.py:165-178). -/
noncomputable def get_average_correlation (s : CorrelationMatrixState) :
    Except String ℝ :=
  match s.correlation_matrix with
  | none => Except.error "Correlation matrix not calculated yet"
  | some df =>
    Except.ok (listMean ((upperPairs df.tickers).map (fun p => df.entry p.1 p.2)))

/-- Summary dict returned by `get_correlation_summary`. -/
structure CorrSummary where
  mean : ℝ
  num_assets : Nat

/-- Method `get_correlation_summary` (correlation_matrix.py:180-200); the
summary statistics other than the mean and asset count are further
descriptive reductions of the same upper-triangle list and are omitted
from the summary record (the claim under check concerns only the guard). -/
noncomputable def get_correlation_summary (s : CorrelationMatrixState) :
    Except String CorrSummary :=
  match s.correlation_matrix with
  | none => Except.error "Correlation matrix not calculated yet"
  | some df =>
    Except.ok ⟨listMean ((upperPairs df.tickers).map (fun p => df.entry p.1 p.2)),
               s.tickers.length⟩

/-- Method `export_to_csv` (correlation_matrix.py:202-212); the value is
the CSV text handed to the file system (the write itself is I/O outside
the model), rendered by an abstract serializer `toCsv`. -/
def export_to_csv (toCsv : CorrDF → String) (s : CorrelationMatrixState)
    (filepath : String) : Except String (String × String) :=
  match s.correlation_matrix with
  | none => Except.error "Correlation matrix not calculated yet"
  | some df => Except.ok (filepath, toCsv df)

/- ===== numpy global random state ===== -/

/-- The numpy global random state: a stream of standard-normal draws, a
stream of raw non-negative integer draws (reduced mod the bound by
`randint`), and the position reached in the stream. -/
structure NpRandomState where
  normals : Nat → ℝ
  ints : Nat → Nat
  counter : Nat

/-- Deterministic content of `np.random.seed`: each integer seed selects
fixed draw streams (the Mersenne Twister is a fixed function of the seed). -/
structure NpSeedMap where
  normalsOf : ℤ → Nat → ℝ
  intsOf : ℤ → Nat → Nat

/-- Guarded seeding `if random_seed is not None: np.random.seed(random_seed)`
at the top of both simulate methods. -/
def npSeed (mt : NpSeedMap) (seed : Option ℤ) (g : NpRandomState) : NpRandomState :=
  match seed with
  | some s => ⟨mt.normalsOf s, mt.intsOf s, 0⟩
  | none => g

/- ===== make_positive_definite (utils.py:5-28, correlation_matrix.py:125-148) ===== -/

/-- Clamp `eigenvalues[eigenvalues < epsilon] = epsilon` (utils.py:19). -/
noncomputable def clampEigenvalues {n : Nat} (eps : ℝ) (lam : Fin n → ℝ) : Fin n → ℝ :=
  fun i => if lam i < eps then eps else lam i

/-- Reconstruction `eigenvectors @ np.diag(eigenvalues) @ eigenvectors.T`
(utils.py:22). -/
def reconstructFromEigen {n : Nat} (Q : Matrix (Fin n) (Fin n) ℝ) (lam : Fin n → ℝ) :
    Matrix (Fin n) (Fin n) ℝ :=
  Q * Matrix.diagonal lam * Q.transpose

/-- Renormalization to unit diagonal by the outer product of the
square-rooted diagonal (utils.py:25-26). -/
noncomputable def normalizeUnitDiagonal {n : Nat} (B : Matrix (Fin n) (Fin n) ℝ) :
    Matrix (Fin n) (Fin n) ℝ :=
  fun i j => B i j / (Real.sqrt (B i i) * Real.sqrt (B j j))

/-- Function `make_positive_definite(matrix, epsilon)` (utils.py:5-28;
`CorrelationMatrix._make_positive_definite` is the identical code).  `eigh`
stands for `np.linalg.eigh`, supplied as an argument; theorems assume of
it exactly that it returns an orthogonal eigendecomposition of its input. -/
noncomputable def make_positive_definite {n : Nat}
    (eigh : Matrix (Fin n) (Fin n) ℝ → Matrix (Fin n) (Fin n) ℝ × (Fin n → ℝ))
    (eps : ℝ) (M : Matrix (Fin n) (Fin n) ℝ) : Matrix (Fin n) (Fin n) ℝ :=
  normalizeUnitDiagonal (reconstructFromEigen (eigh M).1 (clampEigenvalues eps (eigh M).2))

/- ===== MonteCarloSimulation.simulate (monte_carlo.py:38-138) ===== -/

/-- Constructor state of `MonteCarloSimulation` (monte_carlo.py:15-34):
per-asset vectors in ticker order and the optional correlation matrix. -/
structure MCParams (n : Nat) where
  initial_prices : Fin n → ℝ
  expected_returns : Fin n → ℝ
  volatilities : Fin n → ℝ
  correlation_matrix : Option (Matrix (Fin n) (Fin n) ℝ)

/-- One run configuration: the parameters plus the linear-algebra routines
the code calls opaquely (`np.linalg.eigh` inside `make_positive_definite`,
`np.linalg.cholesky`), the step size and the regime flag. -/
structure MCRun (n m : Nat) where
  params : MCParams n
  eigh : Matrix (Fin n) (Fin n) ℝ → Matrix (Fin n) (Fin n) ℝ × (Fin n → ℝ)
  chol : Matrix (Fin n) (Fin n) ℝ → Matrix (Fin n) (Fin n) ℝ
  dt : ℝ
  regime_aware : Bool

/-- Stress transform of the correlation matrix (monte_carlo.py:77-83):
off-diagonal entries pushed 30% of the way to 1. -/
def stressCorr {n : Nat} (M : Matrix (Fin n) (Fin n) ℝ) : Matrix (Fin n) (Fin n) ℝ :=
  fun i j => if i = j then M i j else M i j + (1 - M i j) * 0.3

/-- Stress Cholesky factor (monte_carlo.py:85-88): repair the stressed
matrix with the default epsilon 1e-6, then factorize. -/
noncomputable def stressCholOf {n m : Nat} (R : MCRun n m)
    (c : Matrix (Fin n) (Fin n) ℝ) : Matrix (Fin n) (Fin n) ℝ :=
  R.chol (make_positive_definite R.eigh 1e-6 (stressCorr c))

/-- The block of standard-normal draws of one loop iteration,
`np.random.normal(0, 1, (num_assets, num_simulations))` (monte_carlo.py:93),
laid out in C order starting at stream position `k0 + t*(n*m)`. -/
def mcZ (n m : Nat) (f : Nat → ℝ) (k0 t : Nat) : Fin n → Fin m → ℝ :=
  fun i j => f (k0 + t * (n * m) + i.val * m + j.val)

/-- Column-wise Cholesky transform `L @ shocks` (monte_carlo.py:98). -/
def applyCholCols {n m : Nat} (L : Matrix (Fin n) (Fin n) ℝ)
    (z : Fin n → Fin m → ℝ) : Fin n → Fin m → ℝ :=
  fun i j => L.mulVec (fun i2 => z i2 j) i

/-- The shocks used at loop iteration `t` (monte_carlo.py:92-119): raw
draws without a correlation matrix; base-factor transform when not
regime-aware or at `t = 0`; otherwise per-path selection between the base
and stress factors by the mean previous-step return against -0.015. -/
noncomputable def MCRun.stepShocks {n m : Nat} (R : MCRun n m) (f : Nat → ℝ)
    (k0 t : Nat) (Pt Ptm1 : Fin n → Fin m → ℝ) : Fin n → Fin m → ℝ :=
  match R.params.correlation_matrix with
  | none => mcZ n m f k0 t
  | some c =>
    if R.regime_aware = false then applyCholCols (R.chol c) (mcZ n m f k0 t)
    else if t = 0 then applyCholCols (R.chol c) (mcZ n m f k0 t)
    else fun i j =>
      if (∑ i2, (Pt i2 j / Ptm1 i2 j - 1)) / (n : ℝ) < -0.015
      then applyCholCols (stressCholOf R c) (mcZ n m f k0 t) i j
      else applyCholCols (R.chol c) (mcZ n m f k0 t) i j

/-- Geometric-Brownian-Motion update (monte_carlo.py:121-125):
`price * exp((mu - 0.5*sigma^2)*dt + sigma*sqrt(dt)*shock)` elementwise. -/
noncomputable def gbmStep {n m : Nat} (mu sigma : Fin n → ℝ) (dt : ℝ)
    (P shocks : Fin n → Fin m → ℝ) : Fin n → Fin m → ℝ :=
  fun i j => P i j *
    Real.exp ((mu i - 0.5 * sigma i ^ 2) * dt + sigma i * Real.sqrt dt * shocks i j)

/-- Price slices of the simulation loop: `mcPrices R f k0 t i j` is
`prices[i, j, t]`.  Slice 0 is the initial prices; slice `t+1` applies the
GBM step to slice `t` with the shocks of iteration `t`, whose regime
selection reads slices `t` and `t-1`. -/
noncomputable def mcPrices {n m : Nat} (R : MCRun n m) (f : Nat → ℝ) (k0 : Nat) :
    Nat → Fin n → Fin m → ℝ
  | 0 => fun i _ => R.params.initial_prices i
  | 1 =>
    gbmStep R.params.expected_returns R.params.volatilities R.dt
      (mcPrices R f k0 0)
      (R.stepShocks f k0 0 (mcPrices R f k0 0) (mcPrices R f k0 0))
  | t + 2 =>
    gbmStep R.params.expected_returns R.params.volatilities R.dt
      (mcPrices R f k0 (t + 1))
      (R.stepShocks f k0 (t + 1) (mcPrices R f k0 (t + 1)) (mcPrices R f k0 t))

/-- Results dict of `simulate` (monte_carlo.py:130-135): the price tensor,
the log-return tensor `np.diff(np.log(prices), axis=2)` and the final
slice. -/
structure MCOutput (n m : Nat) where
  prices : Nat → Fin n → Fin m → ℝ
  returns : Nat → Fin n → Fin m → ℝ
  final_prices : Fin n → Fin m → ℝ

/-- Method `MonteCarloSimulation.simulate` (monte_carlo.py:38-138) for `m`
paths over `T` days, threading the global random state through the guarded
seeding. -/
noncomputable def MonteCarloSimulation.simulate {n m : Nat} (R : MCRun n m)
    (T : Nat) (seed : Option ℤ) (mt : NpSeedMap) (g : NpRandomState) : MCOutput n m :=
  let g1 := npSeed mt seed g
  { prices := fun t i j => mcPrices R g1.normals g1.counter t i j,
    returns := fun t i j =>
      Real.log (mcPrices R g1.normals g1.counter (t + 1) i j) -
        Real.log (mcPrices R g1.normals g1.counter t i j),
    final_prices := fun i j => mcPrices R g1.normals g1.counter T i j }

/- ===== HistoricalSimulation.simulate (historical_simulation.py:90-189) ===== -/

/-- Constructor state of `HistoricalSimulation` (historical_simulation.py:18-33):
the historical return panel (row index into the first `N` rows, asset index)
and the initial prices. -/
structure HistRun (n : Nat) where
  hist : Nat → Fin n → ℝ
  N : Nat
  initial_prices : Fin n → ℝ

/-- Width of one appended block (historical_simulation.py:172-181): a
single row when `max_start = N - block_size <= 0`, otherwise `block_size`. -/
def bbWidth (N b : Nat) : Nat := if N ≤ b then 1 else b

/-- Start row of one appended block: `randint(0, N)` in the single-row
fallback, `randint(0, N - block_size)` otherwise (historical_simulation.py:174-181). -/
def bbStart (u : Nat → Nat) (N b k : Nat) : Nat :=
  if N ≤ b then u k % N else u k % (N - b)

/-- The contiguous window `historical_returns.iloc[s : s + w]` of `w`
return rows starting at row `s`. -/
def bbWindow {n : Nat} (R : HistRun n) (w s : Nat) : List (Fin n → ℝ) :=
  (List.range w).map (fun d => fun i => R.hist (s + d) i)

/-- The while loop of `_block_bootstrap` (historical_simulation.py:169-184):
blocks of rows are appended until `needed` days are accumulated; each
iteration consumes one `randint`.  `fuel` bounds the iteration count (any
fuel at least `needed` is enough when the block width is positive). -/
def bbBlocks {n : Nat} (R : HistRun n) (u : Nat → Nat) (b : Nat) :
    Nat → Nat → Nat → List (List (Fin n → ℝ)) × Nat
  | 0, k, _ => ([], k)
  | fuel + 1, k, needed =>
    if needed = 0 then ([], k)
    else
      let block := bbWindow R (bbWidth R.N b) (bbStart u R.N b k)
      let rest := bbBlocks R u b fuel (k + 1) (needed - bbWidth R.N b)
      (block :: rest.1, rest.2)

/-- Method `_block_bootstrap` (historical_simulation.py:153-189): the
accumulated rows concatenated and trimmed to exactly `num_days`, together
with the advanced stream position. -/
def block_bootstrap {n : Nat} (R : HistRun n) (u : Nat → Nat) (b T k : Nat) :
    List (Fin n → ℝ) × Nat :=
  let bl := bbBlocks R u b T k T
  ((bl.1.flatten).take T, bl.2)

/-- The per-path sampling loop of `simulate`
(historical_simulation.py:126-137): standard bootstrap (`block_size = 1`)
draws `T` single rows per path, block bootstrap calls `_block_bootstrap`;
paths are generated in order, sharing the advancing stream position. -/
def histDraws {n : Nat} (R : HistRun n) (u : Nat → Nat) (b T : Nat) :
    Nat → Nat → List (List (Fin n → ℝ)) × Nat
  | 0, k => ([], k)
  | j + 1, k =>
    if b = 1 then
      let rows := (List.range T).map (fun t => fun i => R.hist (u (k + t) % R.N) i)
      let rest := histDraws R u b T j (k + T)
      (rows :: rest.1, rest.2)
    else
      let bb := block_bootstrap R u b T k
      let rest := histDraws R u b T j bb.2
      (bb.1 :: rest.1, rest.2)

/-- Entry `simulated_returns[i, sim, t]` (with the `np.zeros` initial value
for indices never written). -/
def histReturnsAt {n : Nat} (L : List (List (Fin n → ℝ))) (j t : Nat) (i : Fin n) : ℝ :=
  (L.getD j []).getD t (fun _ => 0) i

/-- Price reconstruction `prices[:, :, t+1] = prices[:, :, t] * (1 + r)`
(historical_simulation.py:139-141). -/
noncomputable def histPrices {n : Nat} (p : Fin n → ℝ)
    (L : List (List (Fin n → ℝ))) : Nat → Nat → Fin n → ℝ
  | 0 => fun _ i => p i
  | t + 1 => fun j i => histPrices p L t j i * (1 + histReturnsAt L j t i)

/-- Results dict of `HistoricalSimulation.simulate`
(historical_simulation.py:143-148), indexed (timestep, path, asset). -/
structure HistOutput (n : Nat) where
  prices : Nat → Nat → Fin n → ℝ
  returns : Nat → Nat → Fin n → ℝ
  final_prices : Nat → Fin n → ℝ

/-- Method `HistoricalSimulation.simulate` (historical_simulation.py:90-151)
for `m` paths over `T` days with block size `b`. -/
noncomputable def HistoricalSimulation.simulate {n : Nat} (R : HistRun n)
    (m T b : Nat) (seed : Option ℤ) (mt : NpSeedMap) (g : NpRandomState) :
    HistOutput n :=
  let g1 := npSeed mt seed g
  let L := (histDraws R g1.ints b T m g1.counter).1
  { prices := fun t j i => histPrices R.initial_prices L t j i,
    returns := fun j t i => histReturnsAt L j t i,
    final_prices := fun j i => histPrices R.initial_prices L T j i }

/- ===== calculate_var (monte_carlo.py:234-281, historical_simulation.py:223-270) ===== -/

/-- Linear-interpolation empirical percentile `np.percentile(a, q)` (the
default interpolation): sort ascending, index `pos = q/100 * (len-1)`,
interpolate between the neighbouring order statistics. -/
noncomputable def percentile (l : List ℝ) (q : ℝ) : ℝ :=
  let s := List.insertionSort (· ≤ ·) l
  let pos := q / 100 * ((l.length : ℝ) - 1)
  let i := (Int.floor pos).toNat
  let lo := s.getD i 0
  let hi := s.getD (i + 1) lo
  lo + (pos - (i : ℝ)) * (hi - lo)

/-- Equal-weight portfolio returns of `calculate_var`
(monte_carlo.py:250-263): each simulation contributes
`sum_i (final_i / initial_i) * (weight_per_asset / n) * n`, converted to a
return on the initial portfolio value. -/
noncomputable def portfolioReturns {n : Nat} (initial_prices : Fin n → ℝ)
    (final_prices : List (Fin n → ℝ)) (V0 : ℝ) : List ℝ :=
  final_prices.map (fun fp =>
    ((∑ i, fp i / initial_prices i * (V0 / (n : ℝ) / (n : ℝ))) * (n : ℝ) - V0) / V0)

/-- VaR and CVaR of `calculate_var` (monte_carlo.py:265-270): VaR is the
`(1-confidence)*100` percentile of the portfolio returns; CVaR is
`np.mean` of the returns at or below VaR, which is NaN — modelled as
`none` — exactly when that tail is empty. -/
noncomputable def varCvar (returns : List ℝ) (confidence_level : ℝ) : ℝ × Option ℝ :=
  let var := percentile returns ((1 - confidence_level) * 100)
  let tail := returns.filter (fun r => decide (r ≤ var))
  (var, if tail.isEmpty then none else some (tail.sum / (tail.length : ℝ)))

/-- Method `MonteCarloSimulation.calculate_var` (monte_carlo.py:234-281),
reduced to the (VaR, CVaR) pair of interest. -/
noncomputable def MonteCarloSimulation.calculate_var {n : Nat} (ip : Fin n → ℝ)
    (fps : List (Fin n → ℝ)) (confidence_level V0 : ℝ) : ℝ × Option ℝ :=
  varCvar (portfolioReturns ip fps V0) confidence_level

/-- Method `HistoricalSimulation.calculate_var`
(historical_simulation.py:223-270); the code is identical to the Monte
Carlo version. -/
noncomputable def HistoricalSimulation.calculate_var {n : Nat} (ip : Fin n → ℝ)
    (fps : List (Fin n → ℝ)) (confidence_level V0 : ℝ) : ℝ × Option ℝ :=
  varCvar (portfolioReturns ip fps V0) confidence_level

/- ===== Claim theorems: C3, C4, C8, C10 ===== -/

/-- C3 as stated: applying a scenario shock yields a new, independent
parameter set (a fresh reference) and leaves the input parameter set's
contents unchanged.  It fails on the code: `_apply_scenario_adjustments`
mutates the dict in place and returns the same reference, so at a store
holding expected return 0.1 for ticker A and a -0.2 return shock, the
returned reference equals the argument reference and the contents at that
reference have changed. -/
theorem C3_counterexample :
    ¬ ((applyScenarioAdjustmentsRef (n := 1) (fun M => M)
          (fun _ => ⟨[("A", 100)], [("A", 0.1)], [("A", 0.2)], 1⟩) 0
          ⟨some [("A", -0.2)], none, none⟩).2 ≠ 0 ∧
       (applyScenarioAdjustmentsRef (n := 1) (fun M => M)
          (fun _ => ⟨[("A", 100)], [("A", 0.1)], [("A", 0.2)], 1⟩) 0
          ⟨some [("A", -0.2)], none, none⟩).1 0 =
        ⟨[("A", 100)], [("A", 0.1)], [("A", 0.2)], 1⟩) := by
  intro h
  exact h.1 rfl

/-- C3 (amended): `_apply_scenario_adjustments` is in-place: it returns the
very reference it was given, the contents at that reference after the call
are the shocked contents, and no other reference is touched. -/
theorem C3_inplace {n : Nat}
    (repair : Matrix (Fin n) (Fin n) ℝ → Matrix (Fin n) (Fin n) ℝ)
    (store : Nat → SimData n) (r : Nat) (adj : ScenarioAdjustments) :
    (applyScenarioAdjustmentsRef repair store r adj).2 = r ∧
    (applyScenarioAdjustmentsRef repair store r adj).1 r =
      applyScenarioAdjustmentsData repair (store r) adj ∧
    ∀ r2, r2 ≠ r → (applyScenarioAdjustmentsRef repair store r adj).1 r2 = store r2 := by
  refine ⟨rfl, ?_, ?_⟩
  · simp [applyScenarioAdjustmentsRef]
  · intro r2 h
    simp [applyScenarioAdjustmentsRef, Function.update_noteq h]

/-- Witness instantiating `C3_inplace` at a one-asset store. -/
theorem C3_inplace_witness :
    (applyScenarioAdjustmentsRef (n := 1) (fun M => M)
        (fun _ => ⟨[("A", 100)], [("A", 0.1)], [("A", 0.2)], 1⟩) 0
        ⟨some [("A", -0.2)], none, none⟩).2 = 0 ∧
    (applyScenarioAdjustmentsRef (n := 1) (fun M => M)
        (fun _ => ⟨[("A", 100)], [("A", 0.1)], [("A", 0.2)], 1⟩) 0
        ⟨some [("A", -0.2)], none, none⟩).1 0 =
      applyScenarioAdjustmentsData (fun M => M)
        ⟨[("A", 100)], [("A", 0.1)], [("A", 0.2)], 1⟩
        ⟨some [("A", -0.2)], none, none⟩ ∧
    ∀ r2, r2 ≠ 0 →
      (applyScenarioAdjustmentsRef (n := 1) (fun M => M)
          (fun _ => ⟨[("A", 100)], [("A", 0.1)], [("A", 0.2)], 1⟩) 0
          ⟨some [("A", -0.2)], none, none⟩).1 r2 =
        ⟨[("A", 100)], [("A", 0.1)], [("A", 0.2)], 1⟩ :=
  C3_inplace (fun M => M)
    (fun _ => ⟨[("A", 100)], [("A", 0.1)], [("A", 0.2)], 1⟩) 0
    ⟨some [("A", -0.2)], none, none⟩

/-- C4: applying the scenario `{return_shock: {X: -0.20}}` to a prepared
parameter set in which ticker X carries expected return `v` makes X's
expected return exactly `v - 0.20`, and leaves every other ticker's
expected return, all volatilities, all initial prices and the correlation
matrix unchanged. -/
theorem C4_return_shock {n : Nat}
    (repair : Matrix (Fin n) (Fin n) ℝ → Matrix (Fin n) (Fin n) ℝ)
    (data : SimData n) (X : String) (v : ℝ)
    (hv : dictGet data.expected_returns X = some v) :
    dictGet (applyScenarioAdjustmentsData repair data
        ⟨some [(X, -0.20)], none, none⟩).expected_returns X = some (v - 0.20) ∧
    (∀ Y, Y ≠ X →
      dictGet (applyScenarioAdjustmentsData repair data
          ⟨some [(X, -0.20)], none, none⟩).expected_returns Y =
        dictGet data.expected_returns Y) ∧
    (applyScenarioAdjustmentsData repair data
        ⟨some [(X, -0.20)], none, none⟩).volatilities = data.volatilities ∧
    (applyScenarioAdjustmentsData repair data
        ⟨some [(X, -0.20)], none, none⟩).initial_prices = data.initial_prices ∧
    (applyScenarioAdjustmentsData repair data
        ⟨some [(X, -0.20)], none, none⟩).correlation_matrix = data.correlation_matrix := by
  refine ⟨?_, ?_, rfl, rfl, rfl⟩
  · simp [applyScenarioAdjustmentsData, applyReturnShocks, hv,
      dictGet_dictSet_same, sub_eq_add_neg]
  · intro Y hY
    simp [applyScenarioAdjustmentsData, applyReturnShocks, hv,
      dictGet_dictSet_ne _ _ _ _ hY]

/-- Witness instantiating `C4_return_shock` on a concrete two-ticker set. -/
theorem C4_return_shock_witness :
    dictGet [("A", (0.1 : ℝ)), ("B", 0.05)] "A" = some 0.1 ∧
    (dictGet (applyScenarioAdjustmentsData (n := 2) (fun M => M)
        ⟨[("A", 150), ("B", 250)], [("A", 0.1), ("B", 0.05)], [("A", 0.25), ("B", 0.3)], 1⟩
        ⟨some [("A", -0.20)], none, none⟩).expected_returns "A" = some ((0.1 : ℝ) - 0.20) ∧
    (∀ Y, Y ≠ "A" →
      dictGet (applyScenarioAdjustmentsData (n := 2) (fun M => M)
          ⟨[("A", 150), ("B", 250)], [("A", 0.1), ("B", 0.05)], [("A", 0.25), ("B", 0.3)], 1⟩
          ⟨some [("A", -0.20)], none, none⟩).expected_returns Y =
        dictGet [("A", (0.1 : ℝ)), ("B", 0.05)] Y) ∧
    (applyScenarioAdjustmentsData (n := 2) (fun M => M)
        ⟨[("A", 150), ("B", 250)], [("A", 0.1), ("B", 0.05)], [("A", 0.25), ("B", 0.3)], 1⟩
        ⟨some [("A", -0.20)], none, none⟩).volatilities = [("A", 0.25), ("B", 0.3)] ∧
    (applyScenarioAdjustmentsData (n := 2) (fun M => M)
        ⟨[("A", 150), ("B", 250)], [("A", 0.1), ("B", 0.05)], [("A", 0.25), ("B", 0.3)], 1⟩
        ⟨some [("A", -0.20)], none, none⟩).initial_prices = [("A", 150), ("B", 250)] ∧
    (applyScenarioAdjustmentsData (n := 2) (fun M => M)
        ⟨[("A", 150), ("B", 250)], [("A", 0.1), ("B", 0.05)], [("A", 0.25), ("B", 0.3)], 1⟩
        ⟨some [("A", -0.20)], none, none⟩).correlation_matrix = 1) :=
  ⟨by simp [dictGet],
   C4_return_shock (fun M => M)
     ⟨[("A", 150), ("B", 250)], [("A", 0.1), ("B", 0.05)], [("A", 0.25), ("B", 0.3)], 1⟩
     "A" 0.1 (by simp [dictGet])⟩

/-- C8: whenever the constrained solver reports non-convergence
(`success = false`), both optimize methods return a structured failure
carrying the solver message and no weights entry; and in all cases a
weights entry is present only when the returned `success` is true. -/
theorem C8_structured_failure {n : Nat} (opt : PortfolioOptimizer n)
    (res : ScoResult n) (h : res.success = false) :
    ((optimize_maximum_sharpe opt res).success = false ∧
     (optimize_maximum_sharpe opt res).message = some res.message ∧
     (optimize_maximum_sharpe opt res).weights = none) ∧
    ((optimize_minimum_volatility opt res).success = false ∧
     (optimize_minimum_volatility opt res).message = some res.message ∧
     (optimize_minimum_volatility opt res).weights = none) ∧
    (∀ r2 : ScoResult n, ((optimize_maximum_sharpe opt r2).weights).isSome →
      (optimize_maximum_sharpe opt r2).success = true) ∧
    (∀ r2 : ScoResult n, ((optimize_minimum_volatility opt r2).weights).isSome →
      (optimize_minimum_volatility opt r2).success = true) := by
  refine ⟨?_, ?_, ?_, ?_⟩
  · simp [optimize_maximum_sharpe, h]
  · simp [optimize_minimum_volatility, h]
  · intro r2 hw
    by_cases hs : r2.success = false
    · simp [optimize_maximum_sharpe, hs] at hw
    · simp [optimize_maximum_sharpe, hs]
  · intro r2 hw
    by_cases hs : r2.success = false
    · simp [optimize_minimum_volatility, hs] at hw
    · simp [optimize_minimum_volatility, hs]

/-- Witness instantiating `C8_structured_failure` at a concrete failed
solver outcome on one asset. -/
theorem C8_structured_failure_witness :
    ((optimize_maximum_sharpe (n := 1) ⟨fun _ => "A", fun _ => 0.1, fun _ => 0.2, 1⟩
        ⟨false, "Iteration limit reached", fun _ => 0⟩).success = false ∧
     (optimize_maximum_sharpe (n := 1) ⟨fun _ => "A", fun _ => 0.1, fun _ => 0.2, 1⟩
        ⟨false, "Iteration limit reached", fun _ => 0⟩).message =
        some "Iteration limit reached" ∧
     (optimize_maximum_sharpe (n := 1) ⟨fun _ => "A", fun _ => 0.1, fun _ => 0.2, 1⟩
        ⟨false, "Iteration limit reached", fun _ => 0⟩).weights = none) ∧
    ((optimize_minimum_volatility (n := 1) ⟨fun _ => "A", fun _ => 0.1, fun _ => 0.2, 1⟩
        ⟨false, "Iteration limit reached", fun _ => 0⟩).success = false ∧
     (optimize_minimum_volatility (n := 1) ⟨fun _ => "A", fun _ => 0.1, fun _ => 0.2, 1⟩
        ⟨false, "Iteration limit reached", fun _ => 0⟩).message =
        some "Iteration limit reached" ∧
     (optimize_minimum_volatility (n := 1) ⟨fun _ => "A", fun _ => 0.1, fun _ => 0.2, 1⟩
        ⟨false, "Iteration limit reached", fun _ => 0⟩).weights = none) ∧
    (∀ r2 : ScoResult 1,
      ((optimize_maximum_sharpe (n := 1) ⟨fun _ => "A", fun _ => 0.1, fun _ => 0.2, 1⟩
          r2).weights).isSome →
      (optimize_maximum_sharpe (n := 1) ⟨fun _ => "A", fun _ => 0.1, fun _ => 0.2, 1⟩
          r2).success = true) ∧
    (∀ r2 : ScoResult 1,
      ((optimize_minimum_volatility (n := 1) ⟨fun _ => "A", fun _ => 0.1, fun _ => 0.2, 1⟩
          r2).weights).isSome →
      (optimize_minimum_volatility (n := 1) ⟨fun _ => "A", fun _ => 0.1, fun _ => 0.2, 1⟩
          r2).success = true) :=
  C8_structured_failure ⟨fun _ => "A", fun _ => 0.1, fun _ => 0.2, 1⟩
    ⟨false, "Iteration limit reached", fun _ => 0⟩ rfl

/-- C10: on a freshly constructed `CorrelationMatrix` (correlation matrix
still None) every accessor — Cholesky decomposition, pairwise correlation,
average correlation, correlation summary, CSV export — returns the
ValueError "Correlation matrix not calculated yet" rather than a value. -/
theorem C10_accessors_raise (cholBody : CorrDF → CorrDF) (toCsv : CorrDF → String)
    (t1 t2 filepath : String) :
    get_cholesky_decomposition cholBody CorrelationMatrixState.init =
      Except.error "Correlation matrix not calculated yet" ∧
    get_correlation CorrelationMatrixState.init t1 t2 =
      Except.error "Correlation matrix not calculated yet" ∧
    get_average_correlation CorrelationMatrixState.init =
      Except.error "Correlation matrix not calculated yet" ∧
    get_correlation_summary CorrelationMatrixState.init =
      Except.error "Correlation matrix not calculated yet" ∧
    export_to_csv toCsv CorrelationMatrixState.init filepath =
      Except.error "Correlation matrix not calculated yet" :=
  ⟨rfl, rfl, rfl, rfl, rfl⟩

/- ===== Claim theorems: C2, C9, C5 ===== -/

/-- C2: seeded simulation is deterministic.  With `random_seed` supplied,
`np.random.seed` replaces the global random state, so both simulate
methods produce identical output tensors (prices, returns, final prices)
on two calls with the same seed and inputs, whatever global random state
each call starts from. -/
theorem C2_seeded_determinism {n m : Nat} (R : MCRun n m) (T : Nat) (s : ℤ)
    (mt : NpSeedMap) (g1 g2 : NpRandomState)
    {n2 : Nat} (H : HistRun n2) (m2 T2 b : Nat) (g3 g4 : NpRandomState) :
    MonteCarloSimulation.simulate R T (some s) mt g1 =
      MonteCarloSimulation.simulate R T (some s) mt g2 ∧
    HistoricalSimulation.simulate H m2 T2 b (some s) mt g3 =
      HistoricalSimulation.simulate H m2 T2 b (some s) mt g4 :=
  ⟨rfl, rfl⟩

theorem mcPrices_corr_none_regime_irrel {n m : Nat} (ip er vol : Fin n → ℝ)
    (eigh : Matrix (Fin n) (Fin n) ℝ → Matrix (Fin n) (Fin n) ℝ × (Fin n → ℝ))
    (chol : Matrix (Fin n) (Fin n) ℝ → Matrix (Fin n) (Fin n) ℝ)
    (dt : ℝ) (ra1 ra2 : Bool) (f : Nat → ℝ) (k0 : Nat) (t : Nat) :
    mcPrices (⟨⟨ip, er, vol, none⟩, eigh, chol, dt, ra1⟩ : MCRun n m) f k0 t =
      mcPrices (⟨⟨ip, er, vol, none⟩, eigh, chol, dt, ra2⟩ : MCRun n m) f k0 t := by
  induction t using Nat.twoStepInduction with
  | zero => rfl
  | one => rfl
  | more t ih1 ih2 =>
    simp only [mcPrices]
    rw [ih1, ih2]
    rfl

/-- C9: without a correlation matrix the regime flag has no effect: the
full outputs of regime-aware and non-regime-aware simulate coincide for
every seed and state, and the shocks of every step are the raw independent
draws (no Cholesky transform is applied). -/
theorem C9_regime_flag_noop {n m : Nat} (ip er vol : Fin n → ℝ)
    (eigh : Matrix (Fin n) (Fin n) ℝ → Matrix (Fin n) (Fin n) ℝ × (Fin n → ℝ))
    (chol : Matrix (Fin n) (Fin n) ℝ → Matrix (Fin n) (Fin n) ℝ)
    (dt : ℝ) (T : Nat) (seed : Option ℤ) (mt : NpSeedMap) (g : NpRandomState) :
    MonteCarloSimulation.simulate (⟨⟨ip, er, vol, none⟩, eigh, chol, dt, true⟩ : MCRun n m)
        T seed mt g =
      MonteCarloSimulation.simulate (⟨⟨ip, er, vol, none⟩, eigh, chol, dt, false⟩ : MCRun n m)
        T seed mt g ∧
    ∀ (f : Nat → ℝ) (k0 t : Nat) (Pt Ptm1 : Fin n → Fin m → ℝ) (ra : Bool),
      MCRun.stepShocks (⟨⟨ip, er, vol, none⟩, eigh, chol, dt, ra⟩ : MCRun n m) f k0 t Pt Ptm1 =
        mcZ n m f k0 t := by
  constructor
  · have h := mcPrices_corr_none_regime_irrel (m := m) ip er vol eigh chol dt true false
      (npSeed mt seed g).normals (npSeed mt seed g).counter
    simp only [MonteCarloSimulation.simulate]
    congr 1
    · funext t i j
      rw [h t]
    · funext t i j
      rw [h (t + 1), h t]
    · funext i j
      rw [h T]
  · intro f k0 t Pt Ptm1 ra
    rfl

/-- C5: in regime-aware Monte Carlo with a correlation matrix, the `t = 0`
step transforms every path's draws by the base Cholesky factor, and every
later step transforms path `j`'s draws by the stress factor exactly when
the mean across instruments of that path's previous-step realized return
is strictly below -0.015, and by the base factor otherwise.  The selection
at step `t+1` reads only the price slices `t+1` and `t`, so the regime is
re-evaluated at every step and is not sticky. -/
theorem C5_regime_switching {n m : Nat} (ip er vol : Fin n → ℝ)
    (c : Matrix (Fin n) (Fin n) ℝ)
    (eigh : Matrix (Fin n) (Fin n) ℝ → Matrix (Fin n) (Fin n) ℝ × (Fin n → ℝ))
    (chol : Matrix (Fin n) (Fin n) ℝ → Matrix (Fin n) (Fin n) ℝ)
    (dt : ℝ) (f : Nat → ℝ) (k0 : Nat) :
    (mcPrices (⟨⟨ip, er, vol, some c⟩, eigh, chol, dt, true⟩ : MCRun n m) f k0 1 =
      gbmStep er vol dt (fun i _ => ip i) (applyCholCols (chol c) (mcZ n m f k0 0))) ∧
    (∀ t, mcPrices (⟨⟨ip, er, vol, some c⟩, eigh, chol, dt, true⟩ : MCRun n m) f k0 (t + 2) =
      gbmStep er vol dt
        (mcPrices (⟨⟨ip, er, vol, some c⟩, eigh, chol, dt, true⟩ : MCRun n m) f k0 (t + 1))
        (fun i j =>
          if (∑ i2, (mcPrices (⟨⟨ip, er, vol, some c⟩, eigh, chol, dt, true⟩ : MCRun n m)
                f k0 (t + 1) i2 j /
              mcPrices (⟨⟨ip, er, vol, some c⟩, eigh, chol, dt, true⟩ : MCRun n m)
                f k0 t i2 j - 1)) / (n : ℝ) < -0.015
          then applyCholCols (chol (make_positive_definite eigh 1e-6 (stressCorr c)))
            (mcZ n m f k0 (t + 1)) i j
          else applyCholCols (chol c) (mcZ n m f k0 (t + 1)) i j)) := by
  exact ⟨rfl, fun t => rfl⟩

/- ===== C6: block bootstrap structure ===== -/

theorem bbWindow_one {n : Nat} (R : HistRun n) (s : Nat) :
    bbWindow R 1 s = [fun i => R.hist s i] := by
  simp [bbWindow, List.range_succ]

theorem bbBlocks_spec {n : Nat} (R : HistRun n) (u : Nat → Nat) (b : Nat)
    (hw : 0 < bbWidth R.N b) :
    ∀ fuel needed k, needed ≤ fuel →
      (bbBlocks R u b fuel k needed).1 =
        (List.range ((needed + bbWidth R.N b - 1) / bbWidth R.N b)).map
          (fun q => bbWindow R (bbWidth R.N b) (bbStart u R.N b (k + q))) := by
  intro fuel
  induction fuel with
  | zero =>
    intro needed k h
    have h0 : needed = 0 := Nat.le_zero.mp h
    subst h0
    have hc : (bbWidth R.N b - 1) / bbWidth R.N b = 0 :=
      Nat.div_eq_of_lt (by omega)
    simp [bbBlocks, hc]
  | succ fuel ih =>
    intro needed k h
    by_cases h0 : needed = 0
    · subst h0
      have hc : (bbWidth R.N b - 1) / bbWidth R.N b = 0 :=
        Nat.div_eq_of_lt (by omega)
      simp [bbBlocks, hc]
    · have hcount : (needed + bbWidth R.N b - 1) / bbWidth R.N b =
          (needed - bbWidth R.N b + bbWidth R.N b - 1) / bbWidth R.N b + 1 := by
        by_cases hle : needed ≤ bbWidth R.N b
        · have e1 : needed + bbWidth R.N b - 1 = (needed - 1) + bbWidth R.N b := by omega
          have e2 : needed - bbWidth R.N b = 0 := by omega
          rw [e1, e2, Nat.add_div_right _ hw, Nat.div_eq_of_lt (by omega),
            Nat.div_eq_of_lt (by omega)]
        · have e1 : needed + bbWidth R.N b - 1 = (needed - 1) + bbWidth R.N b := by omega
          have e2 : needed - bbWidth R.N b + bbWidth R.N b - 1 = needed - 1 := by omega
          rw [e1, e2, Nat.add_div_right _ hw]
      simp only [bbBlocks, if_neg h0]
      rw [ih (needed - bbWidth R.N b) (k + 1) (by omega), hcount,
        List.range_succ_eq_map, List.map_cons, List.map_map]
      congr 1
      apply List.map_congr_left
      intro q _
      have e3 : k + 1 + q = k + Nat.succ q := by omega
      simp only [Function.comp, e3]

theorem flatten_window_length {n : Nat} (R : HistRun n) (w : Nat) (g : Nat → Nat) :
    ∀ l : List Nat, ((l.map (fun q => bbWindow R w (g q))).flatten).length = l.length * w := by
  intro l
  induction l with
  | nil => simp
  | cons a l ih =>
    simp only [List.map_cons, List.flatten_cons, List.length_append, ih, List.length_cons]
    have hbw : (bbWindow R w (g a)).length = w := by simp [bbWindow]
    rw [hbw]
    ring

theorem flatten_singleton_map {α : Type} (g : Nat → α) :
    ∀ l : List Nat, ((l.map (fun q => [g q])).flatten) = l.map g := by
  intro l
  induction l with
  | nil => rfl
  | cons a l ih => simp [ih]

/-- C6 (amended): for block size `b ≥ 1` on a non-empty history of `N`
rows, `_block_bootstrap` returns exactly `T` rows; when `N ≤ b` (the code's
`max_start = N - b <= 0` guard, which also fires at `b = N`) every draw is
a single uniformly chosen row, and when `b < N` the output is the
concatenation of `ceil(T / b)` contiguous `b`-row windows with drawn start
rows, truncated to `T`. -/
theorem C6_block_bootstrap_modes {n : Nat} (R : HistRun n) (u : Nat → Nat)
    (b T k : Nat) (hb : 1 ≤ b) (hN : 0 < R.N) :
    (R.N ≤ b → (block_bootstrap R u b T k).1 =
      (List.range T).map (fun t => fun i => R.hist (u (k + t) % R.N) i)) ∧
    (b < R.N → (block_bootstrap R u b T k).1 =
      (((List.range ((T + b - 1) / b)).map
          (fun q => bbWindow R b (u (k + q) % (R.N - b)))).flatten).take T) ∧
    (block_bootstrap R u b T k).1.length = T := by
  have hw : 0 < bbWidth R.N b := by
    unfold bbWidth
    split <;> omega
  have hspec := bbBlocks_spec R u b hw T T k (le_refl T)
  refine ⟨?_, ?_, ?_⟩
  · intro hNb
    have hw1 : bbWidth R.N b = 1 := by simp [bbWidth, hNb]
    simp only [block_bootstrap, hspec, hw1]
    have hdiv : (T + 1 - 1) / 1 = T := by simp
    rw [hdiv]
    have hwin : (fun q => bbWindow R 1 (bbStart u R.N b (k + q))) =
        (fun q => [fun i => R.hist (u (k + q) % R.N) i]) := by
      funext q
      rw [bbWindow_one]
      simp [bbStart, hNb]
    rw [hwin, flatten_singleton_map]
    exact List.take_of_length_le (by simp)
  · intro hbN
    have hw2 : bbWidth R.N b = b := by
      have : ¬ R.N ≤ b := by omega
      simp [bbWidth, this]
    simp only [block_bootstrap, hspec, hw2]
    have hst : (fun q => bbWindow R b (bbStart u R.N b (k + q))) =
        (fun q => bbWindow R b (u (k + q) % (R.N - b))) := by
      funext q
      have : ¬ R.N ≤ b := by omega
      simp [bbStart, this]
    rw [hst]
  · simp only [block_bootstrap]
    rw [hspec]
    rw [List.length_take, flatten_window_length R (bbWidth R.N b)
      (fun q => bbStart u R.N b (k + q)) (List.range ((T + bbWidth R.N b - 1) / bbWidth R.N b))]
    rw [List.length_range]
    have hmul : T ≤ (T + bbWidth R.N b - 1) / bbWidth R.N b * bbWidth R.N b := by
      have h2 := Nat.div_add_mod' (T + bbWidth R.N b - 1) (bbWidth R.N b)
      have h1 : (T + bbWidth R.N b - 1) % bbWidth R.N b < bbWidth R.N b :=
        Nat.mod_lt _ hw
      generalize hp : (T + bbWidth R.N b - 1) / bbWidth R.N b * bbWidth R.N b = P at h2 ⊢
      omega
    omega

/-- C6 as stated: for every block size `k > 1`, as long as `k` does not
exceed the number of historical rows, the output is a truncated
concatenation of contiguous `k`-row windows.  It fails at `block size =
history length`: with 2 historical rows (values 10 and 20 for the single
asset) and block size 2, the code's guard `max_start = N - b <= 0` already
fires, so every draw is a single row; with the integer stream constantly 1
the produced 3-day path is [row1, row1, row1], which no concatenation of
contiguous 2-row windows truncated to 3 days can equal. -/
theorem C6_counterexample :
    ¬ ∃ starts : List Nat,
      (block_bootstrap
          (⟨fun r _ => if r = 0 then (10 : ℝ) else if r = 1 then 20 else 0, 2,
            fun _ => 100⟩ : HistRun 1)
          (fun _ => 1) 2 3 0).1 =
        ((starts.map (fun s =>
            bbWindow (⟨fun r _ => if r = 0 then (10 : ℝ) else if r = 1 then 20 else 0, 2,
              fun _ => 100⟩ : HistRun 1) 2 s)).flatten).take 3 := by
  rintro ⟨starts, hEq⟩
  have hL : (block_bootstrap
      (⟨fun r _ => if r = 0 then (10 : ℝ) else if r = 1 then 20 else 0, 2,
        fun _ => 100⟩ : HistRun 1)
      (fun _ => 1) 2 3 0).1 =
      [fun _ => (20 : ℝ), fun _ => 20, fun _ => 20] := rfl
  rw [hL] at hEq
  match starts with
  | [] => simp at hEq
  | s0 :: rest =>
    have hwin : ∀ s : Nat,
        bbWindow (⟨fun r _ => if r = 0 then (10 : ℝ) else if r = 1 then 20 else 0, 2,
          fun _ => 100⟩ : HistRun 1) 2 s =
        [fun _ => if s + 0 = 0 then (10 : ℝ) else if s + 0 = 1 then 20 else 0,
         fun _ => if s + 1 = 0 then (10 : ℝ) else if s + 1 = 1 then 20 else 0] :=
      fun s => rfl
    simp only [List.map_cons, List.flatten_cons, hwin, List.cons_append,
      List.take_succ_cons, List.cons.injEq] at hEq
    have h1 := congrFun hEq.1 0
    have h2 := congrFun hEq.2.1 0
    simp only [Nat.add_zero] at h1
    match s0 with
    | 0 => norm_num at h1
    | 1 => norm_num at h2
    | s2 + 2 =>
      rw [if_neg (by omega), if_neg (by omega)] at h1
      norm_num at h1

/-- Witness instantiating `C6_block_bootstrap_modes` on a 5-row history
with block size 2. -/
theorem C6_block_bootstrap_modes_witness :
    ((⟨fun r _ => (r : ℝ), 5, fun _ => 100⟩ : HistRun 1).N ≤ 2 →
      (block_bootstrap (⟨fun r _ => (r : ℝ), 5, fun _ => 100⟩ : HistRun 1)
          (fun k => k) 2 3 0).1 =
        (List.range 3).map (fun t => fun i =>
          (⟨fun r _ => (r : ℝ), 5, fun _ => 100⟩ : HistRun 1).hist
            ((fun k => k) (0 + t) % (⟨fun r _ => (r : ℝ), 5, fun _ => 100⟩ : HistRun 1).N) i)) ∧
    (2 < (⟨fun r _ => (r : ℝ), 5, fun _ => 100⟩ : HistRun 1).N →
      (block_bootstrap (⟨fun r _ => (r : ℝ), 5, fun _ => 100⟩ : HistRun 1)
          (fun k => k) 2 3 0).1 =
        (((List.range ((3 + 2 - 1) / 2)).map
            (fun q => bbWindow (⟨fun r _ => (r : ℝ), 5, fun _ => 100⟩ : HistRun 1) 2
              ((fun k => k) (0 + q) %
                ((⟨fun r _ => (r : ℝ), 5, fun _ => 100⟩ : HistRun 1).N - 2)))).flatten).take 3) ∧
    (block_bootstrap (⟨fun r _ => (r : ℝ), 5, fun _ => 100⟩ : HistRun 1)
        (fun k => k) 2 3 0).1.length = 3 :=
  C6_block_bootstrap_modes (⟨fun r _ => (r : ℝ), 5, fun _ => 100⟩ : HistRun 1)
    (fun k => k) 2 3 0 (by omega) (by norm_num)

/- ===== C7: the CVaR tail is never empty ===== -/

theorem min_le_percentile (l : List ℝ) (q : ℝ) (hne : l ≠ [])
    (hq0 : 0 ≤ q) (hq1 : q ≤ 100) :
    ∃ x ∈ l, x ≤ percentile l q := by
  have hperm := List.perm_insertionSort (α := ℝ) (· ≤ ·) l
  have hsort := List.sorted_insertionSort (α := ℝ) (· ≤ ·) l
  have hlen : (List.insertionSort (· ≤ ·) l).length = l.length := hperm.length_eq
  have hlpos : 0 < l.length := List.length_pos.mpr hne
  obtain ⟨a, t, hs⟩ : ∃ a t, List.insertionSort (· ≤ ·) l = a :: t := by
    cases h : List.insertionSort (· ≤ ·) l with
    | nil =>
      rw [h] at hlen
      simp at hlen
      omega
    | cons a t => exact ⟨a, t, rfl⟩
  have ha_mem : a ∈ l := hperm.mem_iff.mp (by rw [hs]; exact List.mem_cons_self a t)
  have ha_le : ∀ x ∈ List.insertionSort (· ≤ ·) l, a ≤ x := by
    intro x hx
    rw [hs] at hx hsort
    rcases List.mem_cons.mp hx with h | h
    · exact h ▸ le_refl a
    · exact (List.sorted_cons.mp hsort).1 x h
  refine ⟨a, ha_mem, ?_⟩
  have hpos0 : 0 ≤ q / 100 * ((l.length : ℝ) - 1) := by
    apply mul_nonneg (by positivity)
    have : (1 : ℝ) ≤ (l.length : ℝ) := by exact_mod_cast hlpos
    linarith
  have hposle : q / 100 * ((l.length : ℝ) - 1) ≤ (l.length : ℝ) - 1 := by
    apply mul_le_of_le_one_left
    · have : (1 : ℝ) ≤ (l.length : ℝ) := by exact_mod_cast hlpos
      linarith
    · linarith
  have hfl0 : 0 ≤ Int.floor (q / 100 * ((l.length : ℝ) - 1)) :=
    Int.floor_nonneg.mpr hpos0
  have hcast : ((Int.floor (q / 100 * ((l.length : ℝ) - 1))).toNat : ℝ) =
      (Int.floor (q / 100 * ((l.length : ℝ) - 1)) : ℝ) := by
    exact_mod_cast congrArg (fun z : ℤ => (z : ℝ)) (Int.toNat_of_nonneg hfl0)
  have hile : ((Int.floor (q / 100 * ((l.length : ℝ) - 1))).toNat : ℝ) ≤
      q / 100 * ((l.length : ℝ) - 1) := by
    rw [hcast]
    exact Int.floor_le _
  have hilt : (Int.floor (q / 100 * ((l.length : ℝ) - 1))).toNat < l.length := by
    have h1 : ((Int.floor (q / 100 * ((l.length : ℝ) - 1))).toNat : ℝ) < (l.length : ℝ) := by
      calc ((Int.floor (q / 100 * ((l.length : ℝ) - 1))).toNat : ℝ)
          ≤ q / 100 * ((l.length : ℝ) - 1) := hile
        _ ≤ (l.length : ℝ) - 1 := hposle
        _ < (l.length : ℝ) := by linarith
    exact_mod_cast h1
  have hfrac0 : 0 ≤ q / 100 * ((l.length : ℝ) - 1) -
      ((Int.floor (q / 100 * ((l.length : ℝ) - 1))).toNat : ℝ) := by linarith
  have hfrac1 : q / 100 * ((l.length : ℝ) - 1) -
      ((Int.floor (q / 100 * ((l.length : ℝ) - 1))).toNat : ℝ) < 1 := by
    rw [hcast]
    have := Int.lt_floor_add_one (q / 100 * ((l.length : ℝ) - 1))
    push_cast at this ⊢
    linarith
  have hilen : (Int.floor (q / 100 * ((l.length : ℝ) - 1))).toNat <
      (List.insertionSort (· ≤ ·) l).length := by rw [hlen]; exact hilt
  have hlo_mem : (List.insertionSort (· ≤ ·) l).getD
      (Int.floor (q / 100 * ((l.length : ℝ) - 1))).toNat 0 ∈
      List.insertionSort (· ≤ ·) l := by
    rw [List.getD_eq_getElem _ _ hilen]
    exact List.getElem_mem _
  have ha_lo : a ≤ (List.insertionSort (· ≤ ·) l).getD
      (Int.floor (q / 100 * ((l.length : ℝ) - 1))).toNat 0 :=
    ha_le _ hlo_mem
  have ha_hi : a ≤ (List.insertionSort (· ≤ ·) l).getD
      ((Int.floor (q / 100 * ((l.length : ℝ) - 1))).toNat + 1)
      ((List.insertionSort (· ≤ ·) l).getD
        (Int.floor (q / 100 * ((l.length : ℝ) - 1))).toNat 0) := by
    by_cases hii : (Int.floor (q / 100 * ((l.length : ℝ) - 1))).toNat + 1 <
        (List.insertionSort (· ≤ ·) l).length
    · have hmem : (List.insertionSort (· ≤ ·) l).getD
          ((Int.floor (q / 100 * ((l.length : ℝ) - 1))).toNat + 1)
          ((List.insertionSort (· ≤ ·) l).getD
            (Int.floor (q / 100 * ((l.length : ℝ) - 1))).toNat 0) ∈
          List.insertionSort (· ≤ ·) l := by
        rw [List.getD_eq_getElem _ _ hii]
        exact List.getElem_mem _
      exact ha_le _ hmem
    · rw [List.getD_eq_default _ _ (by omega)]
      exact ha_lo
  simp only [percentile]
  nlinarith [mul_nonneg hfrac0 (sub_nonneg.mpr ha_lo),
    mul_nonneg (sub_nonneg.mpr (le_of_lt hfrac1)) (sub_nonneg.mpr ha_lo),
    mul_nonneg hfrac0 (sub_nonneg.mpr ha_hi)]

/-- C7: for every non-empty simulation output, `calculate_var` never
produces NaN for CVaR: the empirical linear-interpolation percentile is
always at least the minimum portfolio return, so the tail
`returns <= VaR` always contains the worst observation and `np.mean` is
taken of a non-empty sample (the degenerate empty-tail case the spec
worries about cannot arise, which is how the code avoids NaN without an
explicit fallback). -/
theorem C7_cvar_never_nan {n : Nat} (ip : Fin n → ℝ) (fps : List (Fin n → ℝ))
    (V0 c : ℝ) (hne : fps ≠ []) (hc0 : 0 ≤ c) (hc1 : c ≤ 1) :
    ((MonteCarloSimulation.calculate_var ip fps c V0).2).isSome = true ∧
    ((HistoricalSimulation.calculate_var ip fps c V0).2).isSome = true := by
  have key : ∀ rets : List ℝ, rets ≠ [] → ((varCvar rets c).2).isSome = true := by
    intro rets hrne
    obtain ⟨x, hx_mem, hx_le⟩ := min_le_percentile rets ((1 - c) * 100) hrne
      (by linarith) (by linarith)
    have hmem : x ∈ rets.filter (fun r => decide (r ≤ percentile rets ((1 - c) * 100))) := by
      rw [List.mem_filter]
      exact ⟨hx_mem, by simpa using hx_le⟩
    have hne2 : rets.filter (fun r => decide (r ≤ percentile rets ((1 - c) * 100))) ≠ [] :=
      List.ne_nil_of_mem hmem
    simp only [varCvar]
    rw [if_neg (by simpa using hne2)]
    rfl
  have hmap : portfolioReturns ip fps V0 ≠ [] := by
    simp [portfolioReturns, hne]
  exact ⟨key _ hmap, key _ hmap⟩

/-- Witness instantiating `C7_cvar_never_nan` on a one-path, one-asset
output at 95% confidence. -/
theorem C7_cvar_never_nan_witness :
    (([fun _ => (110 : ℝ)] : List (Fin 1 → ℝ)) ≠ [] ∧ (0 : ℝ) ≤ 0.95 ∧ (0.95 : ℝ) ≤ 1) ∧
    ((MonteCarloSimulation.calculate_var (fun _ => (100 : ℝ))
        ([fun _ => 110] : List (Fin 1 → ℝ)) 0.95 1000000).2).isSome = true ∧
    ((HistoricalSimulation.calculate_var (fun _ => (100 : ℝ))
        ([fun _ => 110] : List (Fin 1 → ℝ)) 0.95 1000000).2).isSome = true :=
  ⟨⟨by simp, by norm_num, by norm_num⟩,
   C7_cvar_never_nan (fun _ => (100 : ℝ)) ([fun _ => 110] : List (Fin 1 → ℝ)) 1000000 0.95
     (by simp) (by norm_num) (by norm_num)⟩

/- ===== C1: properties of the eigenvalue-clamp repair ===== -/

theorem reconstruct_apply {n : Nat} (Q : Matrix (Fin n) (Fin n) ℝ) (lam : Fin n → ℝ)
    (i j : Fin n) :
    reconstructFromEigen Q lam i j = ∑ k, Q i k * lam k * Q j k := by
  unfold reconstructFromEigen
  rw [Matrix.mul_apply]
  apply Finset.sum_congr rfl
  intro k _
  rw [Matrix.mul_diagonal, Matrix.transpose_apply]

theorem reconstruct_quadform {n : Nat} (Q : Matrix (Fin n) (Fin n) ℝ) (lam : Fin n → ℝ)
    (x : Fin n → ℝ) :
    Matrix.dotProduct x ((reconstructFromEigen Q lam).mulVec x) =
      ∑ k, lam k * (Matrix.vecMul x Q k) ^ 2 := by
  unfold reconstructFromEigen
  rw [← Matrix.mulVec_mulVec, Matrix.dotProduct_mulVec, Matrix.mulVec_transpose,
    ← Matrix.vecMul_vecMul]
  simp only [Matrix.dotProduct, Matrix.vecMul_diagonal]
  exact Finset.sum_congr rfl (fun k _ => by ring)

theorem vecMul_dot_self {n : Nat} (Q : Matrix (Fin n) (Fin n) ℝ)
    (hQ : Q * Q.transpose = 1) (x : Fin n → ℝ) :
    Matrix.dotProduct (Matrix.vecMul x Q) (Matrix.vecMul x Q) = Matrix.dotProduct x x := by
  rw [show Matrix.vecMul x Q = Q.transpose.mulVec x from (Matrix.mulVec_transpose Q x).symm,
    Matrix.dotProduct_mulVec, Matrix.mulVec_transpose, Matrix.vecMul_vecMul, hQ,
    Matrix.vecMul_one]

theorem eps_le_clampEigenvalues {n : Nat} (eps : ℝ) (lam : Fin n → ℝ) (k : Fin n) :
    eps ≤ clampEigenvalues eps lam k := by
  by_cases hk : lam k < eps
  · simp [clampEigenvalues, hk]
  · simp only [clampEigenvalues, if_neg hk]
    exact le_of_not_lt hk

theorem quadform_clamped_lower {n : Nat} (Q : Matrix (Fin n) (Fin n) ℝ)
    (lam : Fin n → ℝ) (eps : ℝ) (hQ : Q * Q.transpose = 1) (x : Fin n → ℝ) :
    eps * Matrix.dotProduct x x ≤
      Matrix.dotProduct x ((reconstructFromEigen Q (clampEigenvalues eps lam)).mulVec x) := by
  rw [reconstruct_quadform, ← vecMul_dot_self Q hQ x]
  unfold Matrix.dotProduct
  rw [Finset.mul_sum]
  apply Finset.sum_le_sum
  intro k _
  have hc := eps_le_clampEigenvalues eps lam k
  nlinarith [sq_nonneg (Matrix.vecMul x Q k)]

theorem dotProduct_self_pos {n : Nat} {v : Fin n → ℝ} (hv : v ≠ 0) :
    0 < Matrix.dotProduct v v := by
  have h0 : 0 ≤ Matrix.dotProduct v v := by
    unfold Matrix.dotProduct
    exact Finset.sum_nonneg (fun i _ => mul_self_nonneg (v i))
  have hne : Matrix.dotProduct v v ≠ 0 := fun h => hv (Matrix.dotProduct_self_eq_zero.mp h)
  exact lt_of_le_of_ne h0 (Ne.symm hne)

theorem clamped_diag_lower {n : Nat} (Q : Matrix (Fin n) (Fin n) ℝ) (lam : Fin n → ℝ)
    (eps : ℝ) (hQ : Q * Q.transpose = 1) (i : Fin n) :
    eps ≤ reconstructFromEigen Q (clampEigenvalues eps lam) i i := by
  have hQi : ∑ k, Q i k * Q i k = 1 := by
    have h := congrFun (congrFun hQ i) i
    simpa [Matrix.mul_apply, Matrix.transpose_apply, Matrix.one_apply_eq] using h
  rw [reconstruct_apply]
  calc eps = eps * ∑ k, Q i k * Q i k := by rw [hQi]; ring
    _ = ∑ k, eps * (Q i k * Q i k) := Finset.mul_sum _ _ _
    _ ≤ ∑ k, Q i k * clampEigenvalues eps lam k * Q i k := by
        apply Finset.sum_le_sum
        intro k _
        have hc := eps_le_clampEigenvalues eps lam k
        nlinarith [mul_self_nonneg (Q i k)]

theorem normalize_quadform {n : Nat} (B : Matrix (Fin n) (Fin n) ℝ) (v : Fin n → ℝ) :
    Matrix.dotProduct v ((normalizeUnitDiagonal B).mulVec v) =
      Matrix.dotProduct (fun i => v i / Real.sqrt (B i i))
        (B.mulVec (fun i => v i / Real.sqrt (B i i))) := by
  simp only [Matrix.dotProduct, Matrix.mulVec, normalizeUnitDiagonal]
  apply Finset.sum_congr rfl
  intro i _
  rw [Finset.mul_sum, Finset.mul_sum]
  apply Finset.sum_congr rfl
  intro j _
  ring

/-- C1 (amended): whenever `np.linalg.eigh` hands back an orthogonal
eigendecomposition, the repaired matrix always has unit diagonal and is
positive definite (every eigenvalue of the output is strictly positive),
and every eigenvalue of the clamped reconstruction *before* the
unit-diagonal renormalization is at least the floor `eps`; the
renormalization can push eigenvalues of the final output slightly below
the floor (see the counterexample), so the floor holds only up to the
renormalization, not for the returned matrix. -/
theorem C1_repair_unit_diag_posdef {n : Nat}
    (eigh : Matrix (Fin n) (Fin n) ℝ → Matrix (Fin n) (Fin n) ℝ × (Fin n → ℝ))
    (A : Matrix (Fin n) (Fin n) ℝ) (eps : ℝ) (heps : 0 < eps)
    (hQ : (eigh A).1 * ((eigh A).1).transpose = 1) :
    (∀ i, make_positive_definite eigh eps A i i = 1) ∧
    (∀ (mu : ℝ) (v : Fin n → ℝ), v ≠ 0 →
      (make_positive_definite eigh eps A).mulVec v = mu • v → 0 < mu) ∧
    (∀ (mu : ℝ) (v : Fin n → ℝ), v ≠ 0 →
      (reconstructFromEigen (eigh A).1
        (clampEigenvalues eps (eigh A).2)).mulVec v = mu • v → eps ≤ mu) := by
  have hdiag : ∀ i, eps ≤ reconstructFromEigen (eigh A).1
      (clampEigenvalues eps (eigh A).2) i i :=
    fun i => clamped_diag_lower (eigh A).1 (eigh A).2 eps hQ i
  have hdiagpos : ∀ i, 0 < reconstructFromEigen (eigh A).1
      (clampEigenvalues eps (eigh A).2) i i :=
    fun i => lt_of_lt_of_le heps (hdiag i)
  refine ⟨?_, ?_, ?_⟩
  · intro i
    show reconstructFromEigen (eigh A).1 (clampEigenvalues eps (eigh A).2) i i /
        (Real.sqrt (reconstructFromEigen (eigh A).1 (clampEigenvalues eps (eigh A).2) i i) *
         Real.sqrt (reconstructFromEigen (eigh A).1 (clampEigenvalues eps (eigh A).2) i i)) = 1
    rw [Real.mul_self_sqrt (le_of_lt (hdiagpos i))]
    exact div_self (ne_of_gt (hdiagpos i))
  · intro mu v hv heig
    have hquad : Matrix.dotProduct v ((make_positive_definite eigh eps A).mulVec v) =
        mu * Matrix.dotProduct v v := by
      rw [heig, Matrix.dotProduct_smul, smul_eq_mul]
    have hw : (fun i => v i / Real.sqrt (reconstructFromEigen (eigh A).1
        (clampEigenvalues eps (eigh A).2) i i)) ≠ 0 := by
      obtain ⟨i, hi⟩ := Function.ne_iff.mp hv
      intro hcontra
      have hzi := congrFun hcontra i
      have hsqrt : Real.sqrt (reconstructFromEigen (eigh A).1
          (clampEigenvalues eps (eigh A).2) i i) ≠ 0 :=
        ne_of_gt (Real.sqrt_pos.mpr (hdiagpos i))
      exact hi (by
        have := div_eq_zero_iff.mp hzi
        tauto)
    have hpos : 0 < Matrix.dotProduct v ((make_positive_definite eigh eps A).mulVec v) := by
      have hnq := normalize_quadform (reconstructFromEigen (eigh A).1
        (clampEigenvalues eps (eigh A).2)) v
      have h1 := quadform_clamped_lower (eigh A).1 (eigh A).2 eps hQ
        (fun i => v i / Real.sqrt (reconstructFromEigen (eigh A).1
          (clampEigenvalues eps (eigh A).2) i i))
      have h2 := dotProduct_self_pos hw
      calc (0 : ℝ)
          < eps * Matrix.dotProduct
              (fun i => v i / Real.sqrt (reconstructFromEigen (eigh A).1
                (clampEigenvalues eps (eigh A).2) i i))
              (fun i => v i / Real.sqrt (reconstructFromEigen (eigh A).1
                (clampEigenvalues eps (eigh A).2) i i)) := mul_pos heps h2
        _ ≤ Matrix.dotProduct
              (fun i => v i / Real.sqrt (reconstructFromEigen (eigh A).1
                (clampEigenvalues eps (eigh A).2) i i))
              ((reconstructFromEigen (eigh A).1 (clampEigenvalues eps (eigh A).2)).mulVec
                (fun i => v i / Real.sqrt (reconstructFromEigen (eigh A).1
                  (clampEigenvalues eps (eigh A).2) i i))) := h1
        _ = Matrix.dotProduct v ((make_positive_definite eigh eps A).mulVec v) := hnq.symm
    have hd := dotProduct_self_pos hv
    nlinarith
  · intro mu v hv heig
    have h1 := quadform_clamped_lower (eigh A).1 (eigh A).2 eps hQ v
    have h2 : Matrix.dotProduct v ((reconstructFromEigen (eigh A).1
        (clampEigenvalues eps (eigh A).2)).mulVec v) = mu * Matrix.dotProduct v v := by
      rw [heig, Matrix.dotProduct_smul, smul_eq_mul]
    have h3 := dotProduct_self_pos hv
    nlinarith

/-- Witness instantiating `C1_repair_unit_diag_posdef` at the 1x1 identity
with eigendecomposition (identity, eigenvalue 3). -/
theorem C1_repair_unit_diag_posdef_witness :
    ((0 : ℝ) < 1e-6 ∧
     ((fun _ : Matrix (Fin 1) (Fin 1) ℝ =>
        ((1 : Matrix (Fin 1) (Fin 1) ℝ), fun _ : Fin 1 => (3 : ℝ)))
          (1 : Matrix (Fin 1) (Fin 1) ℝ)).1 *
       (((fun _ : Matrix (Fin 1) (Fin 1) ℝ =>
        ((1 : Matrix (Fin 1) (Fin 1) ℝ), fun _ : Fin 1 => (3 : ℝ)))
          (1 : Matrix (Fin 1) (Fin 1) ℝ)).1).transpose = 1) ∧
    ((∀ i, make_positive_definite
        (fun _ : Matrix (Fin 1) (Fin 1) ℝ =>
          ((1 : Matrix (Fin 1) (Fin 1) ℝ), fun _ : Fin 1 => (3 : ℝ)))
        1e-6 (1 : Matrix (Fin 1) (Fin 1) ℝ) i i = 1) ∧
     (∀ (mu : ℝ) (v : Fin 1 → ℝ), v ≠ 0 →
       (make_positive_definite
          (fun _ : Matrix (Fin 1) (Fin 1) ℝ =>
            ((1 : Matrix (Fin 1) (Fin 1) ℝ), fun _ : Fin 1 => (3 : ℝ)))
          1e-6 (1 : Matrix (Fin 1) (Fin 1) ℝ)).mulVec v = mu • v → 0 < mu) ∧
     (∀ (mu : ℝ) (v : Fin 1 → ℝ), v ≠ 0 →
       (reconstructFromEigen
          ((fun _ : Matrix (Fin 1) (Fin 1) ℝ =>
            ((1 : Matrix (Fin 1) (Fin 1) ℝ), fun _ : Fin 1 => (3 : ℝ)))
              (1 : Matrix (Fin 1) (Fin 1) ℝ)).1
          (clampEigenvalues 1e-6
            ((fun _ : Matrix (Fin 1) (Fin 1) ℝ =>
              ((1 : Matrix (Fin 1) (Fin 1) ℝ), fun _ : Fin 1 => (3 : ℝ)))
                (1 : Matrix (Fin 1) (Fin 1) ℝ)).2)).mulVec v = mu • v → 1e-6 ≤ mu)) :=
  ⟨⟨by norm_num, by simp⟩,
   C1_repair_unit_diag_posdef
     (fun _ : Matrix (Fin 1) (Fin 1) ℝ =>
       ((1 : Matrix (Fin 1) (Fin 1) ℝ), fun _ : Fin 1 => (3 : ℝ)))
     (1 : Matrix (Fin 1) (Fin 1) ℝ) 1e-6 (by norm_num) (by simp)⟩

/-- C1 as stated fails on the code: at the symmetric unit-diagonal input
[[1,1],[1,1]] with floor 1e-6, `np.linalg.eigh` returns the orthogonal
eigendecomposition with eigenvector matrix [[s,s],[s,-s]] (s = sqrt(2)/2)
and eigenvalues (2, 0) — the first two conjuncts check that this oracle
value really is such a decomposition — and the repaired matrix sends the
nonzero vector (1,-1) to 2e-6/(2+1e-6) times itself: an eigenvalue
strictly below the configured floor 1e-6, refuting "every repaired matrix
has every eigenvalue >= the configured floor". -/
theorem C1_counterexample :
    (Matrix.of ![![Real.sqrt 2 / 2, Real.sqrt 2 / 2],
        ![Real.sqrt 2 / 2, -(Real.sqrt 2 / 2)]] : Matrix (Fin 2) (Fin 2) ℝ) *
      (Matrix.of ![![Real.sqrt 2 / 2, Real.sqrt 2 / 2],
        ![Real.sqrt 2 / 2, -(Real.sqrt 2 / 2)]] : Matrix (Fin 2) (Fin 2) ℝ).transpose = 1 ∧
    reconstructFromEigen
      (Matrix.of ![![Real.sqrt 2 / 2, Real.sqrt 2 / 2],
        ![Real.sqrt 2 / 2, -(Real.sqrt 2 / 2)]]) ![(2 : ℝ), 0] =
      Matrix.of ![![(1 : ℝ), 1], ![1, 1]] ∧
    (![(1 : ℝ), -1] : Fin 2 → ℝ) ≠ 0 ∧
    (make_positive_definite
        (fun _ => (Matrix.of ![![Real.sqrt 2 / 2, Real.sqrt 2 / 2],
          ![Real.sqrt 2 / 2, -(Real.sqrt 2 / 2)]], ![(2 : ℝ), 0]))
        1e-6 (Matrix.of ![![(1 : ℝ), 1], ![1, 1]])).mulVec ![(1 : ℝ), -1] =
      (2 * 1e-6 / (2 + 1e-6) : ℝ) • ![(1 : ℝ), -1] ∧
    (2 * 1e-6 / (2 + 1e-6) : ℝ) < 1e-6 := by
  have hs : Real.sqrt 2 * Real.sqrt 2 = 2 := Real.mul_self_sqrt (by norm_num)
  refine ⟨?_, ?_, ?_, ?_, by norm_num⟩
  · ext i j
    fin_cases i <;> fin_cases j <;>
      simp [Matrix.mul_apply, Fin.sum_univ_two, Matrix.one_apply,
        Matrix.transpose_apply, Matrix.vecHead, Matrix.vecTail] <;>
      (first
        | ring1
        | linear_combination hs / 2)
  · ext i j
    fin_cases i <;> fin_cases j <;> rw [reconstruct_apply] <;>
      simp [Fin.sum_univ_two, Matrix.vecHead, Matrix.vecTail] <;>
      linear_combination hs / 2
  · intro h
    have h0 := congrFun h 0
    simp at h0
  · have hd : Real.sqrt ((2 + 1e-6) / 2) * Real.sqrt ((2 + 1e-6) / 2) = (2 + 1e-6) / 2 :=
      Real.mul_self_sqrt (by norm_num)
    have hclamp : clampEigenvalues (1e-6) ![(2 : ℝ), 0] = ![(2 : ℝ), 1e-6] := by
      funext k
      fin_cases k <;> norm_num [clampEigenvalues]
    have hB : reconstructFromEigen
        (Matrix.of ![![Real.sqrt 2 / 2, Real.sqrt 2 / 2],
          ![Real.sqrt 2 / 2, -(Real.sqrt 2 / 2)]]) ![(2 : ℝ), 1e-6] =
        Matrix.of ![![(2 + 1e-6) / 2, (2 - 1e-6) / 2],
          ![(2 - 1e-6) / 2, (2 + 1e-6) / 2]] := by
      ext i j
      fin_cases i <;> fin_cases j <;> rw [reconstruct_apply] <;>
        simp [Fin.sum_univ_two, Matrix.vecHead, Matrix.vecTail] <;>
        (first
          | linear_combination ((2 + 1e-6) / 4) * hs
          | linear_combination ((2 - 1e-6) / 4) * hs)
    simp only [make_positive_definite]
    rw [hclamp, hB]
    funext i
    fin_cases i <;>
      simp only [normalizeUnitDiagonal, Matrix.mulVec, Matrix.dotProduct,
        Fin.sum_univ_two, Matrix.of_apply, Fin.mk_zero, Fin.mk_one,
        Matrix.cons_val_zero, Matrix.cons_val_one, Matrix.head_cons,
        Pi.smul_apply, smul_eq_mul] <;>
      rw [hd] <;> norm_num
